import Mathlib

/-!
Verification of the batch subtitle-translation pipeline
(`app/services/batch_job_builder.py`, `app/services/batch_result_parser.py`,
`app/services/openai_batch_client.py` and the `openai/` and `gemini/`
service variants).

The Python code is shallowly embedded: decoded JSON values become an
inductive type, Python dict/list subscripting becomes explicit
`Except`-valued functions (an `.error` models an uncaught exception),
the line-delimited result documents become lists of decoded lines, and
the polling loops become fuel-indexed recursions over an abstract stream
of provider states.
-/

namespace Srt

/-- A JSON value as decoded by `json.loads`.  Object fields keep file order;
Python dict keys are unique, lookups take the first binding. -/
inductive Json : Type where
  | null : Json
  | bool (b : Bool) : Json
  | num (n : Int) : Json
  | str (s : String) : Json
  | arr (elems : List Json) : Json
  | obj (fields : List (String × Json)) : Json

/-- Python truthiness of a decoded JSON value (used by `if record.get("error")`). -/
def Json.truthy : Json → Bool
  | .null => false
  | .bool b => b
  | .num n => n != 0
  | .str s => s != ""
  | .arr l => !l.isEmpty
  | .obj f => !f.isEmpty

/-- First binding for a key in a decoded JSON object (Python dict lookup). -/
def lookupField : List (String × Json) → String → Option Json
  | [], _ => none
  | (k', v) :: rest, k => if k' = k then some v else lookupField rest k

/-- Python `value[key]` for a string key: dicts index by key (`KeyError` when
absent); every other value raises (`TypeError`, string indices must be
integers). -/
def pySubscriptStr (j : Json) (k : String) : Except String Json :=
  match j with
  | .obj fields =>
    match lookupField fields k with
    | some v => .ok v
    | none => .error ("KeyError: " ++ k)
  | _ => .error "TypeError: value is not subscriptable by a string key"

/-- Python `value[0]`: lists index positionally (`IndexError` when empty),
strings yield their first character as a one-character string, dicts with
string keys raise `KeyError: 0`, everything else raises `TypeError`. -/
def pySubscriptZero (j : Json) : Except String Json :=
  match j with
  | .arr (x :: _) => .ok x
  | .arr [] => .error "IndexError: list index out of range"
  | .str s =>
    match s.data with
    | [] => .error "IndexError: string index out of range"
    | c :: _ => .ok (.str (String.mk [c]))
  | .obj _ => .error "KeyError: 0"
  | _ => .error "TypeError: value is not subscriptable"

/-- Model of Python `s.rsplit(sep, 1)`: split at the LAST occurrence of
`sep`; `none` when `sep` does not occur (Python then returns a
single-element list, and unpacking it into two names raises
`ValueError`). -/
def rsplitLast (sep : Char) : List Char → Option (List Char × List Char)
  | [] => none
  | c :: rest =>
    match rsplitLast sep rest with
    | some (pre, post) => some (c :: pre, post)
    | none => if c = sep then some ([], rest) else none

/-- Model of Python `s.split(sep, 1)`: split at the FIRST occurrence of
`sep`; `none` when `sep` does not occur. -/
def splitFirst (sep : Char) : List Char → Option (List Char × List Char)
  | [] => none
  | c :: rest =>
    if c = sep then some ([], rest)
    else
      match splitFirst sep rest with
      | some (pre, post) => some (c :: pre, post)
      | none => none

/-- The decimal digit character with value `d % 10`, via the ASCII code
48 of the character zero. -/
def digitChar (d : Nat) : Char := Char.ofNat (48 + d % 10)

/-- Decimal value of a digit character, `none` for non-digits. -/
def digitVal (c : Char) : Option Nat :=
  if 48 ≤ c.toNat ∧ c.toNat ≤ 57 then some (c.toNat - 48) else none

/-- Decimal rendering with explicit fuel (any fuel above the number
itself is enough; the structural recursion keeps the definition
kernel-reducible). -/
def natReprAux : Nat → Nat → List Char
  | 0, _ => []
  | fuel + 1, n =>
    if n < 10 then [digitChar n]
    else natReprAux fuel (n / 10) ++ [digitChar (n % 10)]

/-- Decimal rendering of a natural number, as produced by a Python
f-string interpolating a non-negative int. -/
def natRepr (n : Nat) : List Char := natReprAux (n + 1) n

/-- Accumulating decimal parse of a digit string. -/
def parseNatAux (acc : Nat) : List Char → Option Nat
  | [] => some acc
  | c :: rest =>
    match digitVal c with
    | some d => parseNatAux (acc * 10 + d) rest
    | none => none

/-- Parse a non-empty all-digit string as a natural number. -/
def parseNatDigits : List Char → Option Nat
  | [] => none
  | s => parseNatAux 0 s

/-- Model of Python `int(s)` restricted to an optional sign followed by
decimal digits (whitespace and underscore forms are not needed by the
correlation keys this program builds); `none` models `ValueError`. -/
def pyIntChars : List Char → Option Int
  | '-' :: rest => (parseNatDigits rest).map (fun n => -(n : Int))
  | '+' :: rest => (parseNatDigits rest).map (fun n => (n : Int))
  | s => (parseNatDigits s).map (fun n => (n : Int))

/-- The correlation key written by both request builders:
the Python f-string `"{language}:{start_index}"`. -/
def mkKeyChars (language : List Char) (startIndex : Nat) : List Char :=
  language ++ ':' :: natRepr startIndex

/-- String-level correlation key. -/
def mkKey (language : String) (startIndex : Nat) : String :=
  String.mk (mkKeyChars language.data startIndex)

/-! ## Request Builder (`MultiLangBatchJobBuilder.build`) -/

/-- Ascending `range(start, stop, step)` with a positive step, with
explicit fuel (any fuel at or above `stop - start` is enough; the
structural recursion keeps the definition kernel-reducible). -/
def pyRangeAux : Nat → Nat → Nat → Nat → List Nat
  | 0, _, _, _ => []
  | fuel + 1, start, stop, step =>
    if start < stop ∧ 0 < step then start :: pyRangeAux fuel (start + step) stop step
    else []

/-- Python `range(0, stop, step)` for an arbitrary int step, as used by
`for i in range(0, len(subtitles), batch_size)`: a zero step raises
`ValueError`; a negative step yields nothing because the range starts at 0;
a positive step counts up to `stop`. -/
def pyRangeZero (stop : Nat) (step : Int) : Except String (List Nat) :=
  if step = 0 then .error "ValueError: range() arg 3 must not be zero"
  else if step < 0 then .ok []
  else .ok (pyRangeAux stop 0 stop step.toNat)

/-- One line of the request JSONL document, keeping the fields the
pipeline later correlates on: the `custom_id`/`key` string, the target
language, the chunk start, and the user payload of
(absolute index, content) pairs. -/
structure BatchRequest where
  custom_id : String
  language : String
  start_index : Nat
  payload : List (Nat × String)
deriving DecidableEq

/-- One request line: `custom_id` is `f"{language}:{i}"`, the chunk is
`subtitles[i : i + batch_size]` and the payload pairs each chunk element
with its absolute record index `i + j`. -/
def mkRequest (records : List String) (language : String) (bs : Nat) (i : Nat) :
    BatchRequest :=
  { custom_id := mkKey language i
    language := language
    start_index := i
    payload := ((records.drop i).take bs).enum.map (fun p => (i + p.1, p.2)) }

/-- The two nested loops of `MultiLangBatchJobBuilder.build`: languages
outer, chunk starts inner; the chunk-start range is evaluated once per
language, so an empty language list never evaluates it. -/
def buildLoop (records : List String) (bs : Int) :
    List String → Except String (List BatchRequest)
  | [] => .ok []
  | language :: rest => do
    let starts ← pyRangeZero records.length bs
    let more ← buildLoop records bs rest
    .ok (starts.map (mkRequest records language bs.toNat) ++ more)

/-- Model of `MultiLangBatchJobBuilder.build`
(`app/services/batch_job_builder.py` and
`app/services/openai/batch_job_builder.py`): the caller-supplied batch
size is capped above by 60 (`batch_size = min(batch_size, 60)`) and the
request lines are emitted language by language, chunk by chunk. -/
def build_requests (records : List String) (languages : List String)
    (batch_size : Int) : Except String (List BatchRequest) :=
  buildLoop records (min batch_size 60) languages

/-! ## Result Correlator (`split_by_language`) -/

/-- One line of the line-delimited batch result document, as the parser
sees it: blank after stripping, undecodable (`json.loads` raises
`JSONDecodeError`), or a decoded JSON value. -/
inductive ResultLine where
  | blank : ResultLine
  | invalid : ResultLine
  | record (j : Json) : ResultLine

/-- The free-form model payload handed to `safe_json_parse`: only string
content can parse (any other value raises inside `safe_json_parse`, where
every exception is caught); the string-level JSON-array extraction itself
is abstracted as the function argument `pp`, with `none` meaning all three
extraction attempts failed. -/
def payloadItems (pp : String → Option (List Json)) : Json → Option (List Json)
  | .str s => pp s
  | _ => none

/-- The nesting `response["body"]["choices"][0]["message"]["content"]`
used by the OpenAI result documents. -/
def extractOpenAIContent (response : Json) : Except String Json := do
  let body ← pySubscriptStr response "body"
  let choices ← pySubscriptStr body "choices"
  let first ← pySubscriptZero choices
  let message ← pySubscriptStr first "message"
  pySubscriptStr message "content"

/-- One loop iteration of `BatchResultParser.split_by_language` in
`app/services/batch_result_parser.py`.  Only the `safe_json_parse` call is
inside a try/except there, so an undecodable line, a missing or
non-string or colon-free `custom_id`, and a broken response nesting all
raise (`.error`); an error-marked record or a failed payload extraction is
skipped (`.ok none`); a surviving record contributes its language bucket
and parsed items. -/
def splitLineBase (pp : String → Option (List Json)) :
    ResultLine → Except String (Option (String × List Json))
  | .blank => .ok none
  | .invalid => .error "json.loads: JSONDecodeError"
  | .record j =>
    match j with
    | .obj fields =>
      if ((lookupField fields "error").getD .null).truthy then .ok none
      else
        match lookupField fields "custom_id" with
        | none => .error "KeyError: custom_id"
        | some (.str cid) =>
          match rsplitLast ':' cid.data with
          | none => .error "ValueError: not enough values to unpack"
          | some (langChars, _) =>
            match (do
                let response ← pySubscriptStr (.obj fields) "response"
                extractOpenAIContent response) with
            | .error e => .error e
            | .ok content =>
              .ok ((payloadItems pp content).map (fun parsed => (String.mk langChars, parsed)))
        | some _ => .error "AttributeError: rsplit on a non-string"
    | _ => .error "AttributeError: get on a non-object"

/-- One loop iteration of `BatchResultParser.split_by_language` in
`app/services/openai/batch_result_parser.py`.  There every step is inside
its own try/except: undecodable lines, error-marked records, missing or
colon-free `custom_id` values, broken response nestings and failed
payload extractions are all skipped.  The two remaining uncaught spots are
a decoded line that is not an object (`.get` raises `AttributeError`) and
a `custom_id` that is not a string (`.rsplit` raises `AttributeError`,
which `except (ValueError, KeyError)` does not catch). -/
def splitLineOpenAI (pp : String → Option (List Json)) :
    ResultLine → Except String (Option (String × List Json))
  | .blank => .ok none
  | .invalid => .ok none
  | .record j =>
    match j with
    | .obj fields =>
      if ((lookupField fields "error").getD .null).truthy then .ok none
      else
        match lookupField fields "custom_id" with
        | none => .ok none
        | some (.str cid) =>
          match rsplitLast ':' cid.data with
          | none => .ok none
          | some (langChars, _) =>
            match extractOpenAIContent ((lookupField fields "response").getD (.obj [])) with
            | .error _ => .ok none
            | .ok content =>
              .ok ((payloadItems pp content).map (fun parsed => (String.mk langChars, parsed)))
        | some _ => .error "AttributeError: rsplit on a non-string"
    | _ => .error "AttributeError: get on a non-object"

/-- `results[lang].extend(items)` on a `defaultdict(list)`, keeping
insertion order of the language buckets. -/
def extendGroup (groups : List (String × List Json)) (lang : String)
    (items : List Json) : List (String × List Json) :=
  match groups with
  | [] => [(lang, items)]
  | (l, its) :: rest =>
    if l = lang then (l, its ++ items) :: rest
    else (l, its) :: extendGroup rest lang items

/-- First bucket for a language (Python dict lookup). -/
def lookupGroup : List (String × List Json) → String → Option (List Json)
  | [], _ => none
  | (l, its) :: rest, lang => if l = lang then some its else lookupGroup rest lang

/-- One loop step of `split_by_language`: run one line, then either skip
or extend that language bucket. -/
def splitStep (line : ResultLine → Except String (Option (String × List Json)))
    (groups : List (String × List Json)) (l : ResultLine) :
    Except String (List (String × List Json)) :=
  (line l).map (fun c =>
    match c with
    | none => groups
    | some (lang, items) => extendGroup groups lang items)

/-- `split_by_language` of `app/services/batch_result_parser.py`:
fold the per-line step over the document, starting from an empty
`defaultdict(list)`. -/
def split_by_language_base (pp : String → Option (List Json))
    (doc : List ResultLine) : Except String (List (String × List Json)) :=
  doc.foldlM (splitStep (splitLineBase pp)) []

/-- `split_by_language` of `app/services/openai/batch_result_parser.py`. -/
def split_by_language_openai (pp : String → Option (List Json))
    (doc : List ResultLine) : Except String (List (String × List Json)) :=
  doc.foldlM (splitStep (splitLineOpenAI pp)) []

/-- The decoded lines the `openai/` variant of `split_by_language` never
raises on: anything except an object-shaped record, provided a present
`custom_id` is a string (or the record is error-marked and skipped before
the `custom_id` access). -/
def lineSafeOpenAI : ResultLine → Bool
  | .blank => true
  | .invalid => true
  | .record (.obj fields) =>
    ((lookupField fields "error").getD .null).truthy ||
      (match lookupField fields "custom_id" with
       | some (.str _) => true
       | none => true
       | some _ => false)
  | .record _ => false

/-- The key recovery of `GeminiBatchResultParser.split_by_language`
(`app/services/gemini/gemini_batch_result_parser.py`):
`language, chunk_index = key.split(':', 1)` followed by
`int(chunk_index)`; a key without a colon, or a chunk-index part that is
not an int literal, makes the record be skipped (`none`). -/
def geminiRecoverKey (key : String) : Option (String × Int) :=
  match splitFirst ':' key.data with
  | none => none
  | some (langChars, idxChars) =>
    (pyIntChars idxChars).map (fun i => (String.mk langChars, i))

/-! ## Reassembler (`apply_translations`) -/

/-- One parsed subtitle record: index, two timestamps (opaque to the
reassembler, which never computes on timing) and the text content. -/
structure Subtitle where
  index : Int
  start : String
  stop : String
  content : String
deriving DecidableEq

/-- One recovered translation handed to the reassembler:
an `{index, content}` pair. -/
structure TransItem where
  index : Int
  content : String
deriving DecidableEq

/-- Replace the content of the record at a position, keeping everything
else (`subtitles[idx].content = item["content"]`). -/
def modifyContent : List Subtitle → Nat → String → List Subtitle
  | [], _, _ => []
  | s :: rest, 0, c => { s with content := c } :: rest
  | s :: rest, n + 1, c => s :: modifyContent rest n c

/-- `BatchResultParser.apply_translations`
(`app/services/batch_result_parser.py`), record level: walk the
translated lines in order; an in-range index overwrites that record
content in place (later duplicates win), an out-of-range index is logged
and skipped.  The record list itself is returned; the file level then
serializes it unchanged. -/
def apply_translations_base (subs : List Subtitle) (items : List TransItem) :
    List Subtitle :=
  items.foldl
    (fun acc it =>
      if 0 ≤ it.index ∧ it.index < (acc.length : Int) then
        modifyContent acc it.index.toNat it.content
      else acc)
    subs

/-- The dict comprehension
built by the dict comprehension over item index and item content:
the LAST binding for an index wins. -/
def translationLookup (items : List TransItem) (i : Int) : Option String :=
  items.foldl (fun acc it => if it.index = i then some it.content else acc) none

/-- `GeminiBatchResultParser.apply_translations`
(`app/services/gemini/gemini_batch_result_parser.py`), record level: an
empty translation list returns early and writes NO output file (`none`);
otherwise every original record is kept in position, with its content
replaced when its position is in the translation map and kept verbatim
otherwise. -/
def apply_translations_gemini (subs : List Subtitle) (items : List TransItem) :
    Option (List Subtitle) :=
  if items.isEmpty then none
  else
    some (subs.enum.map (fun p =>
      match translationLookup items (p.1 : Int) with
      | some c => { p.2 with content := c }
      | none => p.2))

/-! ## Decoder encoding resolution -/

/-- The ordered fallback encodings tried after a decode failure. -/
def fallbackEncodings : List String := ["utf-8", "utf-16", "latin-1", "cp1252"]

/-- `detect_file_encoding` (`app/services/openai/batch_job_builder.py` and
`app/services/gemini/gemini_batch_builder.py`) as a function of the
detector outcome: `none` models an exception while reading or detecting
(caught, defaults to utf-8); otherwise the chardet result is a pair of
the reported encoding (possibly Python `None`) and a confidence score,
and any confidence below 0.7 falls back to utf-8. -/
def detect_file_encoding (detector : Option (Option String × ℚ)) : Option String :=
  match detector with
  | none => some "utf-8"
  | some (enc, conf) => if conf < 7 / 10 then some "utf-8" else enc

/-- `GeminiBatchJobBuilder._try_fallback_encodings` (and the identical
inline loop of the `openai/` builder): try each fallback encoding in
order, return the first successful decode, raise `ValueError` after the
loop when all fail.  `tryRead e = none` models `UnicodeDecodeError` under
encoding `e`. -/
def try_fallback_encodings (tryRead : String → Option (List Subtitle)) :
    List String → Except String (List Subtitle)
  | [] => .error "ValueError: could not read file with any encoding"
  | e :: rest =>
    match tryRead e with
    | some subs => .ok subs
    | none => try_fallback_encodings tryRead rest

/-- `GeminiBatchJobBuilder._parse_srt_file`: decode with the detected
encoding first, and on `UnicodeDecodeError` run the fallback loop. -/
def parse_srt_file (tryRead : Option String → Option (List Subtitle))
    (detector : Option (Option String × ℚ)) : Except String (List Subtitle) :=
  match tryRead (detect_file_encoding detector) with
  | some subs => .ok subs
  | none => try_fallback_encodings (fun e => tryRead (some e)) fallbackEncodings

/-! ## Batch Clients (`wait_until_done`) -/

/-- The usage object of a completed OpenAI batch, when present. -/
structure OpenAIUsage where
  input_tokens : Int
  output_tokens : Int
  total_tokens : Int
  cached_tokens : Option Int
  reasoning_tokens : Option Int
deriving DecidableEq

/-- One polled view of an OpenAI batch job. -/
structure OpenAIBatch where
  status : String
  output_file_id : String
  usage : Option OpenAIUsage
deriving DecidableEq

/-- The usage dict assembled by `OpenAIBatchClient.wait_until_done`
(`app/services/openai_batch_client.py`): `{}` when `batch.usage` is
absent; otherwise the three token counts plus the optional detail
entries. -/
def openaiExtractUsage : Option OpenAIUsage → List (String × Int)
  | none => []
  | some u =>
    [("input_tokens", u.input_tokens), ("output_tokens", u.output_tokens),
     ("total_tokens", u.total_tokens)]
    ++ (match u.cached_tokens with
        | some c => [("cached_tokens", c)]
        | none => [])
    ++ (match u.reasoning_tokens with
        | some r => [("reasoning_tokens", r)]
        | none => [])

/-- `OpenAIBatchClient.wait_until_done` as a fuel-indexed recursion over
the stream of polled states: the loop body returns only on status
`"completed"` and otherwise sleeps and polls again; `none` means the fuel
ran out with the loop still running (the source loop has no other exit). -/
def wait_until_done_openai (poll : Nat → OpenAIBatch) :
    Nat → Nat → Option (String × List (String × Int))
  | _, 0 => none
  | k, fuel + 1 =>
    let b := poll k
    if b.status = "completed" then some (b.output_file_id, openaiExtractUsage b.usage)
    else wait_until_done_openai poll (k + 1) fuel

/-- `batch_job.usage_metadata` of a Gemini batch job, when present; each
count is `getattr(_, field, 0) or 0`, so an absent or `None` count reads
as 0. -/
structure GeminiUsageMetadata where
  prompt_token_count : Option Int
  candidates_token_count : Option Int
  total_token_count : Option Int
deriving DecidableEq

/-- The alternative `batch_job.usage` location probed when
`usage_metadata` is absent. -/
structure GeminiUsageAlt where
  prompt_tokens : Option Int
  completion_tokens : Option Int
  total_tokens : Option Int
deriving DecidableEq

/-- One polled view of a Gemini batch job. -/
structure GeminiJob where
  state : String
  error : Option String
  usage_metadata : Option GeminiUsageMetadata
  usage_alt : Option GeminiUsageAlt
  dest_file_name : Option String
deriving DecidableEq

/-- `getattr(x, field, 0) or 0`: absent or `None` reads as 0. -/
def getOr0 : Option Int → Int
  | none => 0
  | some v => v

/-- The usage extraction of `GeminiBatchClient.wait_until_done`
(`app/services/gemini/gemini_batch_client.py`): `usage_metadata` first,
then the alternative `usage` attribute, and an explicitly zeroed summary
when both are absent. -/
def geminiExtractUsage (j : GeminiJob) : List (String × Int) :=
  match j.usage_metadata with
  | some m =>
    [("prompt_tokens", getOr0 m.prompt_token_count),
     ("completion_tokens", getOr0 m.candidates_token_count),
     ("total_tokens", getOr0 m.total_token_count)]
  | none =>
    match j.usage_alt with
    | some u =>
      [("prompt_tokens", getOr0 u.prompt_tokens),
       ("completion_tokens", getOr0 u.completion_tokens),
       ("total_tokens", getOr0 u.total_tokens)]
    | none => [("prompt_tokens", 0), ("completion_tokens", 0), ("total_tokens", 0)]

/-- The four terminal Gemini job states. -/
def geminiCompletedStates : List String :=
  ["JOB_STATE_SUCCEEDED", "JOB_STATE_FAILED", "JOB_STATE_CANCELLED", "JOB_STATE_EXPIRED"]

/-- What `GeminiBatchClient.wait_until_done` does once a terminal state is
seen: every non-succeeded terminal state raises a `RuntimeError` carrying
the state name and the provider error text; success returns the result
file handle and the usage summary. -/
def geminiFinish (b : GeminiJob) :
    Except String (Option String × List (String × Int)) :=
  if b.state ≠ "JOB_STATE_SUCCEEDED" then
    .error ("Batch failed with state: " ++ b.state
      ++ (match b.error with
          | some e => " - " ++ e
          | none => ""))
  else .ok (b.dest_file_name, geminiExtractUsage b)

/-- `GeminiBatchClient.wait_until_done` as a fuel-indexed recursion: poll
until the state is terminal, then finish; `none` means the fuel ran out
with no terminal state seen. -/
def wait_until_done_gemini (poll : Nat → GeminiJob) :
    Nat → Nat → Option (Except String (Option String × List (String × Int)))
  | _, 0 => none
  | k, fuel + 1 =>
    let b := poll k
    if b.state ∈ geminiCompletedStates then some (geminiFinish b)
    else wait_until_done_gemini poll (k + 1) fuel

/-! ## Input-file cleanup -/

/-- A filesystem as a set of existing paths. -/
def FileSys : Type := String → Bool

/-- `os.remove` / `os.unlink`. -/
def osRemove (fs : FileSys) (path : String) : FileSys :=
  fun q => if q = path then false else fs q

/-- `TranslationProcessor.process_openai_batch_translations`
(`app/services/translation_processor.py`): run the batch service (an
arbitrary effect on the filesystem) and then unconditionally
`os.remove(input_path)`. -/
def process_openai_batch_translations (service : FileSys → FileSys)
    (fs : FileSys) (input_path : String) : FileSys :=
  osRemove (service fs) input_path

/-- The tail of `OpenAIBatchTranslationService.translate_and_notify`
(`app/services/openai/openai_batch_translation_service.py`): after the
webhook is sent, the uploaded input file and the intermediate request
document are unlinked unless the deployment setting equals "local". -/
def translate_and_notify_cleanup (deployment : String) (fs : FileSys)
    (input_path output_jsonl : String) : FileSys :=
  if ¬ deployment = "local" then osRemove (osRemove fs input_path) output_jsonl
  else fs

/-! ## Concrete example documents -/

/-- A recovered translation element for index 0. -/
def exampleItemA : Json := .obj [("index", .num 0), ("content", .str "Bonjour")]

/-- A recovered translation element for index 1. -/
def exampleItemB : Json := .obj [("index", .num 1), ("content", .str "Monde")]

/-- A model payload extractor: only the payload text "GOOD" yields a
JSON array, everything else fails all three extraction attempts. -/
def examplePayloadFn : String → Option (List Json) :=
  fun s => if s = "GOOD" then some [exampleItemA, exampleItemB] else none

/-- A well-formed OpenAI result record for the key "fr:0" whose payload
text is "GOOD". -/
def exampleGoodRecord : ResultLine :=
  .record (.obj
    [("custom_id", .str "fr:0"),
     ("response", .obj
       [("body", .obj
         [("choices", .arr
           [.obj [("message", .obj [("content", .str "GOOD")])]])])])])

/-- A result document with exactly one well-formed record and nine
malformed ones: two undecodable lines, an error-marked record, a
colon-free key, a missing key, a missing response, an empty choices
array, a payload that fails extraction, and a non-string payload. -/
def exampleResultDoc : List ResultLine :=
  [.invalid,
   .record (.obj [("error", .str "rate limit"), ("custom_id", .str "fr:0")]),
   .record (.obj [("custom_id", .str "nocolon"), ("response", .str "x")]),
   .record (.obj [("response", .str "x")]),
   exampleGoodRecord,
   .invalid,
   .record (.obj [("custom_id", .str "de:0")]),
   .record (.obj [("custom_id", .str "de:0"),
     ("response", .obj [("body", .obj [("choices", .arr [])])])]),
   .record (.obj [("custom_id", .str "de:0"),
     ("response", .obj [("body", .obj [("choices", .arr
       [.obj [("message", .obj [("content", .str "BAD")])]])])])]),
   .record (.obj [("custom_id", .str "de:0"),
     ("response", .obj [("body", .obj [("choices", .arr
       [.obj [("message", .obj [("content", .num 5)])]])])])])]

/-- A one-record result document for the key "de:3". -/
def exampleDocDe : List ResultLine :=
  [.record (.obj
    [("custom_id", .str "de:3"),
     ("response", .obj
       [("body", .obj
         [("choices", .arr
           [.obj [("message", .obj [("content", .str "GOOD")])]])])])])]

/-! ## Theorems -/

theorem osRemove_self (fs : FileSys) (p : String) : osRemove fs p p = false := by
  simp [osRemove]

theorem osRemove_other_then_self (fs : FileSys) (p q : String) :
    osRemove (osRemove fs p) q p = false := by
  unfold osRemove
  by_cases h : p = q <;> simp [h]

/-- C2: the spec says every non-success terminal state makes
`wait_until_done` raise a fatal error with the provider diagnostic.
The Gemini client does exactly that, but both OpenAI clients only test
for `"completed"` and poll forever: on a batch whose status stays
`"failed"`, `wait_until_done` never returns for any amount of fuel,
contradicting the spec and the method docstring of the `openai/` variant
(which promises `OpenAIError: If batch fails or is cancelled`). -/
theorem wait_until_done_terminal_behavior :
    (∀ fuel k,
      wait_until_done_openai
        (fun _ => { status := "failed", output_file_id := "", usage := none })
        k fuel = none) ∧
    (∀ fuel k,
      wait_until_done_gemini
        (fun _ => { state := "JOB_STATE_FAILED", error := some "provider diagnostic",
                    usage_metadata := none, usage_alt := none, dest_file_name := none })
        k (fuel + 1) =
        some (.error "Batch failed with state: JOB_STATE_FAILED - provider diagnostic")) := by
  constructor
  · intro fuel
    induction fuel with
    | zero => intro k; rfl
    | succ n ih => intro k; exact ih (k + 1)
  · intro fuel k; rfl

/-- C6 counterexample: called with an empty recovered-translation list,
the Gemini reassembler returns early and writes NO output file at all
(`none`), instead of producing an output file identical in content to
the input file as the claim states. -/
theorem gemini_empty_no_output_cex :
    apply_translations_gemini
      [⟨1, "00:00:01,000", "00:00:02,000", "Hello"⟩,
       ⟨2, "00:00:03,000", "00:00:04,000", "World"⟩] [] = none := rfl

/-- C6 amended: with an empty recovered-translation list, the base
reassembler leaves the parsed record sequence completely unchanged (so
the file it writes is the re-serialization of the unchanged input
records), while the Gemini variant produces no output at all. -/
theorem reassembler_empty_identity (subs : List Subtitle) :
    apply_translations_base subs [] = subs ∧
    apply_translations_gemini subs [] = none :=
  ⟨rfl, rfl⟩

/-- C8 counterexample: on a completed batch with no usage data, the
OpenAI client returns successfully but with an EMPTY usage mapping,
which is not the zeroed usage summary (all token counts present and
zero) that the claim states. -/
theorem openai_wait_empty_usage_cex :
    wait_until_done_openai
      (fun _ => { status := "completed", output_file_id := "file-1", usage := none })
      0 1 = some ("file-1", []) ∧
    ([] : List (String × Int)) ≠
      [("input_tokens", 0), ("output_tokens", 0), ("total_tokens", 0)] :=
  ⟨rfl, by decide⟩

/-- C8 amended: a batch that reaches the success state always returns
(absent usage data never fails the job).  The Gemini client returns an
explicitly zeroed usage summary when both usage locations are absent,
while the OpenAI client returns the usage mapping it could extract,
which is empty (no token counts at all, rather than zero counts) when
`batch.usage` is absent. -/
theorem usage_extraction_on_success (b : GeminiJob)
    (hs : b.state = "JOB_STATE_SUCCEEDED") :
    (geminiFinish b = .ok (b.dest_file_name, geminiExtractUsage b) ∧
      (b.usage_metadata = none → b.usage_alt = none →
        geminiExtractUsage b =
          [("prompt_tokens", 0), ("completion_tokens", 0), ("total_tokens", 0)])) ∧
    (∀ (poll : Nat → OpenAIBatch) (k fuel : Nat), (poll k).status = "completed" →
      wait_until_done_openai poll k (fuel + 1) =
        some ((poll k).output_file_id, openaiExtractUsage (poll k).usage) ∧
      ((poll k).usage = none → openaiExtractUsage (poll k).usage = [])) := by
  refine ⟨⟨?_, ?_⟩, ?_⟩
  · simp [geminiFinish, hs]
  · intro h1 h2
    simp [geminiExtractUsage, h1, h2]
  · intro poll k fuel hc
    refine ⟨?_, ?_⟩
    · show (if (poll k).status = "completed" then _ else _) = _
      rw [if_pos hc]
    · intro hu
      rw [hu]
      rfl

/-- Closed witness for the C8 theorem at a concrete succeeded Gemini job
with no usage data and a concrete completed OpenAI batch with no usage
data. -/
theorem usage_extraction_on_success_witness :
    (geminiFinish
        { state := "JOB_STATE_SUCCEEDED", error := none, usage_metadata := none,
          usage_alt := none, dest_file_name := some "out-file" } =
      .ok (some "out-file",
        [("prompt_tokens", 0), ("completion_tokens", 0), ("total_tokens", 0)])) ∧
    wait_until_done_openai
      (fun _ => { status := "completed", output_file_id := "fid", usage := none })
      3 5 = some ("fid", []) := by
  have h := usage_extraction_on_success
    { state := "JOB_STATE_SUCCEEDED", error := none, usage_metadata := none,
      usage_alt := none, dest_file_name := some "out-file" } rfl
  refine ⟨?_, ?_⟩
  · have h2 := h.1.2 rfl rfl
    have h1 := h.1.1
    rw [h2] at h1
    exact h1
  · have h3 := (h.2 (fun _ => { status := "completed", output_file_id := "fid", usage := none }) 3 4 rfl).1
    exact h3

/-- C10: the uploaded input subtitle file does not survive a completed
run.  The base processor removes it unconditionally after the batch
service returns, whatever the service did to the filesystem; the async
service variant unlinks both the input file and the intermediate request
document whenever the deployment setting is not "local", and leaves the
filesystem untouched by this step when it is "local". -/
theorem input_file_deleted :
    (∀ (service : FileSys → FileSys) (fs : FileSys) (input_path : String),
      process_openai_batch_translations service fs input_path input_path = false) ∧
    (∀ (deployment : String) (fs : FileSys) (inp out : String),
      deployment ≠ "local" →
      translate_and_notify_cleanup deployment fs inp out inp = false ∧
      translate_and_notify_cleanup deployment fs inp out out = false) ∧
    (∀ (fs : FileSys) (inp out : String),
      translate_and_notify_cleanup "local" fs inp out = fs) := by
  refine ⟨?_, ?_, ?_⟩
  · intro service fs p
    exact osRemove_self (service fs) p
  · intro dep fs inp out h
    unfold translate_and_notify_cleanup
    rw [if_pos h]
    exact ⟨osRemove_other_then_self fs inp out, osRemove_self (osRemove fs inp) out⟩
  · intro fs inp out
    rfl

/-- Closed witness for the C10 theorem at a concrete filesystem, input
path and non-local deployment. -/
theorem input_file_deleted_witness :
    process_openai_batch_translations id (fun _ => true) "in.srt" "in.srt" = false ∧
    translate_and_notify_cleanup "cloud" (fun _ => true) "in.srt" "req.jsonl" "in.srt" = false ∧
    translate_and_notify_cleanup "cloud" (fun _ => true) "in.srt" "req.jsonl" "req.jsonl" = false := by
  refine ⟨input_file_deleted.1 id (fun _ => true) "in.srt", ?_, ?_⟩
  · exact (input_file_deleted.2.1 "cloud" (fun _ => true) "in.srt" "req.jsonl" (by decide)).1
  · exact (input_file_deleted.2.1 "cloud" (fun _ => true) "in.srt" "req.jsonl" (by decide)).2

theorem try_fallback_isOk (tryRead : String → Option (List Subtitle)) :
    ∀ l, (try_fallback_encodings tryRead l).isOk = true ↔
      ∃ e ∈ l, (tryRead e).isSome = true := by
  intro l
  induction l with
  | nil => simp [try_fallback_encodings, Except.isOk, Except.toBool]
  | cons e rest ih =>
    unfold try_fallback_encodings
    cases h : tryRead e with
    | some v => simp [h, Except.isOk, Except.toBool]
    | none => simp [h, ih]

theorem try_fallback_first (tryRead : String → Option (List Subtitle)) :
    ∀ (pre : List String) (e : String) (post : List String) (v : List Subtitle),
      (∀ e2 ∈ pre, tryRead e2 = none) → tryRead e = some v →
      try_fallback_encodings tryRead (pre ++ e :: post) = .ok v := by
  intro pre
  induction pre with
  | nil =>
    intro e post v _ he
    simp [try_fallback_encodings, he]
  | cons p rest ih =>
    intro e post v hpre he
    have hp : tryRead p = none := hpre p (by simp)
    simp only [List.cons_append, try_fallback_encodings, hp]
    exact ih e post v (fun x hx => hpre x (by simp [hx])) he

/-- C7: encoding resolution.  Detection falls back to utf-8 whenever the
detector confidence is below 0.7 (and when detection itself raised); a
decode failure under the chosen encoding walks the ordered list
utf-8, utf-16, latin-1, cp1252, the first encoding that decodes wins,
and the decoder raises its decode error exactly when the detected
attempt and every fallback fail. -/
theorem decoder_encoding_resolution :
    (∀ (enc : Option String) (conf : ℚ), conf < 7 / 10 →
      detect_file_encoding (some (enc, conf)) = some "utf-8") ∧
    detect_file_encoding none = some "utf-8" ∧
    (∀ (tryRead : Option String → Option (List Subtitle)) detector,
      (parse_srt_file tryRead detector).isOk = true ↔
        ((tryRead (detect_file_encoding detector)).isSome = true ∨
          ∃ e ∈ fallbackEncodings, (tryRead (some e)).isSome = true)) ∧
    (∀ (tryRead : Option String → Option (List Subtitle)) detector
        (v : List Subtitle) (pre : List String) (e : String) (post : List String),
      tryRead (detect_file_encoding detector) = none →
      fallbackEncodings = pre ++ e :: post →
      (∀ e2 ∈ pre, tryRead (some e2) = none) →
      tryRead (some e) = some v →
      parse_srt_file tryRead detector = .ok v) := by
  refine ⟨?_, rfl, ?_, ?_⟩
  · intro enc conf hconf
    simp [detect_file_encoding, hconf]
  · intro tryRead detector
    unfold parse_srt_file
    cases h : tryRead (detect_file_encoding detector) with
    | some v => simp [h, Except.isOk, Except.toBool]
    | none => simp [h, try_fallback_isOk]
  · intro tryRead detector v pre e post hdet hsplit hpre he
    unfold parse_srt_file
    rw [hdet, hsplit]
    exact try_fallback_first _ pre e post v (fun x hx => hpre x hx) he

/-- Closed witness for the C7 theorem: a detector with confidence 1/2
resolves to utf-8, and a file that only decodes as latin-1 is decoded by
the third fallback attempt after the detected encoding, utf-8 and utf-16
fail. -/
theorem decoder_encoding_resolution_witness :
    detect_file_encoding (some (some "utf-16", 1 / 2)) = some "utf-8" ∧
    parse_srt_file
      (fun e => if e = some "latin-1" then some [⟨1, "t0", "t1", "hola"⟩] else none)
      (some (some "utf-16", 1 / 2)) = .ok [⟨1, "t0", "t1", "hola"⟩] := by
  have hdet := decoder_encoding_resolution.1 (some "utf-16") (1 / 2) (by norm_num)
  refine ⟨hdet, ?_⟩
  exact decoder_encoding_resolution.2.2.2
    (fun e => if e = some "latin-1" then some [⟨1, "t0", "t1", "hola"⟩] else none)
    (some (some "utf-16", 1 / 2)) [⟨1, "t0", "t1", "hola"⟩]
    ["utf-8", "utf-16"] "latin-1" ["cp1252"]
    (by rw [hdet]; decide) rfl (by decide) rfl

theorem digitVal_digitChar (d : Nat) (h : d < 10) : digitVal (digitChar d) = some d := by
  interval_cases d <;> rfl

theorem digitChar_ne_colon (d : Nat) (h : d < 10) : digitChar d ≠ ':' := by
  interval_cases d <;> decide

theorem natReprAux_ne_nil (fuel n : Nat) : natReprAux (fuel + 1) n ≠ [] := by
  unfold natReprAux
  split <;> simp

theorem natReprAux_mem (fuel : Nat) :
    ∀ n c, c ∈ natReprAux fuel n → ∃ d, d < 10 ∧ c = digitChar d := by
  induction fuel with
  | zero =>
    intro n c h
    simp [natReprAux] at h
  | succ f ih =>
    intro n c h
    unfold natReprAux at h
    by_cases h10 : n < 10
    · rw [if_pos h10] at h
      simp at h
      exact ⟨n, h10, h⟩
    · rw [if_neg h10] at h
      rcases List.mem_append.mp h with h2 | h2
      · exact ih _ c h2
      · simp at h2
        exact ⟨n % 10, Nat.mod_lt _ (by omega), h2⟩

theorem natRepr_no_colon (n : Nat) : ':' ∉ natRepr n := by
  intro hmem
  obtain ⟨d, hd, he⟩ := natReprAux_mem _ _ _ hmem
  exact digitChar_ne_colon d hd he.symm

theorem parseNatAux_cons (acc : Nat) (c : Char) (l : List Char) :
    parseNatAux acc (c :: l) =
      match digitVal c with
      | some d => parseNatAux (acc * 10 + d) l
      | none => none := rfl

theorem parseNatAux_append :
    ∀ (xs ys : List Char) (acc : Nat),
      parseNatAux acc (xs ++ ys) =
        (parseNatAux acc xs).bind (fun m => parseNatAux m ys) := by
  intro xs
  induction xs with
  | nil => intro ys acc; rfl
  | cons c rest ih =>
    intro ys acc
    rw [List.cons_append, parseNatAux_cons, parseNatAux_cons]
    cases h : digitVal c with
    | some d =>
      simp only []
      exact ih ys (acc * 10 + d)
    | none => rfl

theorem parseNatAux_natReprAux (fuel : Nat) :
    ∀ n acc, n < fuel →
      parseNatAux acc (natReprAux fuel n) =
        some (acc * 10 ^ (natReprAux fuel n).length + n) := by
  induction fuel with
  | zero => intro n acc h; omega
  | succ f ih =>
    intro n acc h
    unfold natReprAux
    by_cases h10 : n < 10
    · rw [if_pos h10]
      show parseNatAux acc [digitChar n] = _
      unfold parseNatAux
      rw [digitVal_digitChar n h10]
      show some (acc * 10 + n) = _
      norm_num
    · rw [if_neg h10]
      rw [parseNatAux_append]
      have hn : n / 10 < f := by omega
      rw [ih (n / 10) acc hn]
      show parseNatAux (acc * 10 ^ (natReprAux f (n / 10)).length + n / 10)
          [digitChar (n % 10)] = _
      unfold parseNatAux
      rw [digitVal_digitChar _ (Nat.mod_lt _ (by omega))]
      show some ((acc * 10 ^ (natReprAux f (n / 10)).length + n / 10) * 10 + n % 10) = _
      congr 1
      have h1 : (acc * 10 ^ (natReprAux f (n / 10)).length + n / 10) * 10 + n % 10 =
          acc * (10 ^ (natReprAux f (n / 10)).length * 10) + (n / 10 * 10 + n % 10) := by
        ring
      rw [h1]
      simp only [List.length_append, List.length_singleton, pow_succ]
      omega

theorem parseNatDigits_natRepr (n : Nat) : parseNatDigits (natRepr n) = some n := by
  have hne := natReprAux_ne_nil n n
  unfold parseNatDigits natRepr
  cases hL : natReprAux (n + 1) n with
  | nil => exact absurd hL hne
  | cons c rest =>
    show parseNatAux 0 (c :: rest) = some n
    have hp := parseNatAux_natReprAux (n + 1) n 0 (by omega)
    rw [hL] at hp
    simpa using hp

theorem rsplitLast_no_sep (sep : Char) :
    ∀ s, sep ∉ s → rsplitLast sep s = none := by
  intro s
  induction s with
  | nil => intro _; rfl
  | cons c rest ih =>
    intro h
    unfold rsplitLast
    rw [ih (fun hm => h (List.mem_cons_of_mem c hm))]
    have hc : ¬ c = sep := fun he => h (by rw [he]; exact List.mem_cons_self _ _)
    rw [if_neg hc]

theorem rsplitLast_append (sep : Char) (ys : List Char) (hys : sep ∉ ys) :
    ∀ xs, rsplitLast sep (xs ++ sep :: ys) = some (xs, ys) := by
  intro xs
  induction xs with
  | nil =>
    show rsplitLast sep (sep :: ys) = some ([], ys)
    unfold rsplitLast
    rw [rsplitLast_no_sep sep ys hys]
    simp
  | cons c rest ih =>
    show rsplitLast sep (c :: (rest ++ sep :: ys)) = _
    unfold rsplitLast
    rw [ih]

/-- C4 counterexample: the Gemini result correlator splits the key at the
FIRST delimiter occurrence (`key.split(':', 1)`), not the last, so for
the language "a:b" and start index 0 the key "a:b:0" is mis-split into
("a", "b:0"), the int conversion of "b:0" fails, and the record is
dropped instead of recovering ("a:b", 0) as the claim states. -/
theorem gemini_key_first_split_cex :
    geminiRecoverKey (mkKey "a:b" 0) = none ∧
    splitFirst ':' (mkKey "a:b" 0).data = some ("a".data, "b:0".data) ∧
    geminiRecoverKey (mkKey "a:b" 0) ≠ some ("a:b", (0 : Int)) := by
  refine ⟨rfl, rfl, ?_⟩
  decide

/-- C4 amended: splitting the correlation key
`"{language}:{start_index}"` at the LAST delimiter occurrence — which is
what the OpenAI-side correlators do via `rsplit(":", 1)` — always
recovers exactly the original language and the decimal rendering of the
original start index, for every language (including languages containing
the delimiter) and every start index, and the decimal rendering parses
back to the original number.  (The Gemini correlator instead splits at
the first occurrence, see the counterexample.) -/
theorem correlation_key_roundtrip (lang : List Char) (n : Nat) :
    rsplitLast ':' (mkKeyChars lang n) = some (lang, natRepr n) ∧
    parseNatDigits (natRepr n) = some n :=
  ⟨rsplitLast_append ':' (natRepr n) (natRepr_no_colon n) lang,
   parseNatDigits_natRepr n⟩

theorem pyRangeAux_length (step : Nat) (hs : 0 < step) :
    ∀ fuel start stop, stop - start ≤ fuel →
      (pyRangeAux fuel start stop step).length = (stop - start + step - 1) / step := by
  intro fuel
  induction fuel with
  | zero =>
    intro start stop h
    have h0 : stop - start = 0 := by omega
    simp only [pyRangeAux, List.length_nil, h0]
    rw [show 0 + step - 1 = step - 1 from by omega]
    exact (Nat.div_eq_of_lt (by omega)).symm
  | succ f ih =>
    intro start stop h
    unfold pyRangeAux
    by_cases hlt : start < stop ∧ 0 < step
    · rw [if_pos hlt]
      simp only [List.length_cons]
      rw [ih (start + step) stop (by omega)]
      by_cases hds : step < stop - start
      · have e1 : stop - (start + step) + step - 1 = stop - start - 1 := by omega
        have e2 : stop - start + step - 1 = stop - start - 1 + step := by omega
        rw [e1, e2, Nat.add_div_right _ hs]
      · have e1 : stop - (start + step) = 0 := by omega
        have e2 : stop - start + step - 1 = stop - start - 1 + step := by omega
        rw [e1, e2, Nat.add_div_right _ hs]
        rw [Nat.div_eq_of_lt (show 0 + step - 1 < step by omega),
          Nat.div_eq_of_lt (show stop - start - 1 < step by omega)]
    · rw [if_neg hlt]
      have hns : ¬ start < stop := fun hc => hlt ⟨hc, hs⟩
      have h0 : stop - start = 0 := by omega
      simp only [List.length_nil, h0]
      rw [show 0 + step - 1 = step - 1 from by omega]
      exact (Nat.div_eq_of_lt (by omega)).symm

theorem pyRangeAux_head (fuel start stop step : Nat) :
    ∀ z ∈ (pyRangeAux fuel start stop step).head?, z = start := by
  cases fuel with
  | zero =>
    intro z hz
    simp [pyRangeAux] at hz
  | succ f =>
    intro z hz
    unfold pyRangeAux at hz
    by_cases h : start < stop ∧ 0 < step
    · rw [if_pos h] at hz
      simp at hz
      omega
    · rw [if_neg h] at hz
      simp at hz

theorem pyRangeAux_chain (step : Nat) (hs : 0 < step) :
    ∀ fuel start stop, List.Chain' (· < ·) (pyRangeAux fuel start stop step) := by
  intro fuel
  induction fuel with
  | zero => intro start stop; simp [pyRangeAux]
  | succ f ih =>
    intro start stop
    unfold pyRangeAux
    by_cases hlt : start < stop ∧ 0 < step
    · rw [if_pos hlt]
      rw [List.chain'_cons']
      refine ⟨?_, ih (start + step) stop⟩
      intro y hy
      have := pyRangeAux_head f (start + step) stop step y hy
      omega
    · rw [if_neg hlt]
      simp

theorem pyRangeAux_cover (len step : Nat) (hs : 0 < step) :
    ∀ fuel start, len - start ≤ fuel →
      ((pyRangeAux fuel start len step).map
        (fun i => List.range' i (min step (len - i)))).flatten =
      List.range' start (len - start) := by
  intro fuel
  induction fuel with
  | zero =>
    intro start h
    have h0 : len - start = 0 := by omega
    simp [pyRangeAux, h0]
  | succ f ih =>
    intro start h
    unfold pyRangeAux
    by_cases hlt : start < len ∧ 0 < step
    · rw [if_pos hlt]
      simp only [List.map_cons, List.flatten_cons]
      rw [ih (start + step) (by omega)]
      by_cases hcase : len - start ≤ step
      · have e1 : min step (len - start) = len - start := by omega
        have e2 : len - (start + step) = 0 := by omega
        rw [e1, e2]
        simp
      · have e1 : min step (len - start) = step := by omega
        rw [e1, List.range'_append_1 start step (len - (start + step))]
        congr 1
        omega
    · rw [if_neg hlt]
      have hns : ¬ start < len := fun hc => hlt ⟨hc, hs⟩
      have h0 : len - start = 0 := by omega
      simp [h0]

theorem mkRequest_language (records : List String) (l : String) (bs i : Nat) :
    (mkRequest records l bs i).language = l := rfl

theorem mkRequest_payload_fst (records : List String) (language : String) (bs i : Nat) :
    (mkRequest records language bs i).payload.map Prod.fst =
      List.range' i (min bs (records.length - i)) := by
  show ((((records.drop i).take bs).enum.map (fun p => (i + p.1, p.2))).map Prod.fst) = _
  rw [List.map_map]
  rw [show (Prod.fst ∘ fun p : Nat × String => (i + p.1, p.2)) =
    ((i + ·) ∘ Prod.fst) from rfl]
  rw [← List.map_map, List.enum_eq_enumFrom, List.enumFrom_map_fst, List.map_add_range']
  rw [List.length_take, List.length_drop]
  norm_num

theorem buildLoop_ok (records : List String) (bs : Int) (starts : List Nat)
    (hr : pyRangeZero records.length bs = .ok starts) :
    ∀ langs, buildLoop records bs langs =
      .ok ((langs.map (fun l => starts.map (mkRequest records l bs.toNat))).flatten) := by
  intro langs
  induction langs with
  | nil => simp [buildLoop]
  | cons l rest ih =>
    show (do
        let starts2 ← pyRangeZero records.length bs
        let more ← buildLoop records bs rest
        Except.ok (starts2.map (mkRequest records l bs.toNat) ++ more)) = _
    rw [hr, ih]
    rfl

theorem filter_lang_block (records : List String) (bs : Nat) (starts : List Nat)
    (l lang : String) :
    (starts.map (mkRequest records l bs)).filter (fun r => r.language = lang) =
      if l = lang then starts.map (mkRequest records l bs) else [] := by
  induction starts with
  | nil => simp
  | cons s rest ih =>
    simp only [List.map_cons, List.filter_cons, mkRequest_language]
    by_cases h : l = lang
    · simp [h, ih]
      intro a _
      rfl
    · simp [h, ih]

theorem filter_lang_none (records : List String) (bs : Nat) (starts : List Nat)
    (lang : String) :
    ∀ langs : List String, lang ∉ langs →
      (((langs.map (fun l => starts.map (mkRequest records l bs))).flatten).filter
        (fun r => r.language = lang)) = [] := by
  intro langs
  induction langs with
  | nil => intro _; rfl
  | cons l rest ih =>
    intro h
    simp only [List.map_cons, List.flatten_cons, List.filter_append]
    rw [filter_lang_block, if_neg (fun he => h (by rw [he]; exact List.mem_cons_self _ _)),
      List.nil_append]
    exact ih (fun hm => h (List.mem_cons_of_mem _ hm))

theorem build_filter_lang (records : List String) (bs : Nat) (starts : List Nat)
    (lang : String) :
    ∀ langs : List String, langs.Nodup → lang ∈ langs →
      (((langs.map (fun l => starts.map (mkRequest records l bs))).flatten).filter
        (fun r => r.language = lang)) = starts.map (mkRequest records lang bs) := by
  intro langs
  induction langs with
  | nil => intro _ h; simp at h
  | cons l rest ih =>
    intro hnd hmem
    simp only [List.map_cons, List.flatten_cons, List.filter_append]
    rcases List.mem_cons.mp hmem with he | hm
    · subst he
      rw [filter_lang_block, if_pos rfl,
        filter_lang_none records bs starts lang rest (List.nodup_cons.mp hnd).1,
        List.append_nil]
    · have hne : l ≠ lang := by
        rintro rfl
        exact (List.nodup_cons.mp hnd).1 hm
      rw [filter_lang_block, if_neg hne, List.nil_append]
      exact ih (List.nodup_cons.mp hnd).2 hm

/-- C3 counterexample: the builder only caps the chunk size from above
(`batch_size = min(batch_size, 60)`); there is no lower clamp at 1.  A
requested chunk size of 0 (which is ≤ 60) reaches
`range(0, len(subtitles), 0)` and raises `ValueError`; the claim instead
predicts `ceil(1 / clamp(0, 1, 60)) = 1` chunk. -/
theorem build_zero_chunk_cex :
    build_requests ["only line"] ["fr"] 0 =
      .error "ValueError: range() arg 3 must not be zero" := rfl

/-- C3 amended: for every record list, every duplicate-free language
list and every requested chunk size ≥ 1, the builder succeeds and emits,
per language, exactly `ceil(N / min(chunk_size, 60))` chunks (so the
effective chunk size is capped at the provider-safe maximum 60, and a
requested size ≤ 60 is used as-is); the chunk start indices are strictly
increasing, and the payload index spans of the chunks are non-overlapping
and cover `0..N-1` exactly once, in order. -/
theorem builder_chunking (records languages : List String) (chunk_size : Int)
    (h1 : 1 ≤ chunk_size) (hnd : languages.Nodup) :
    ∃ reqs, build_requests records languages chunk_size = .ok reqs ∧
      ∀ lang ∈ languages,
        ((reqs.filter (fun r => r.language = lang)).length =
          (records.length + (min chunk_size 60).toNat - 1) / (min chunk_size 60).toNat) ∧
        List.Chain' (· < ·)
          ((reqs.filter (fun r => r.language = lang)).map (fun r => r.start_index)) ∧
        (((reqs.filter (fun r => r.language = lang)).map
            (fun r => r.payload.map Prod.fst)).flatten = List.range records.length) := by
  have hbspos : 1 ≤ min chunk_size 60 := le_min h1 (by norm_num)
  have hb : 0 < (min chunk_size 60).toNat := by omega
  have hr : pyRangeZero records.length (min chunk_size 60) =
      .ok (pyRangeAux records.length 0 records.length (min chunk_size 60).toNat) := by
    unfold pyRangeZero
    rw [if_neg (by omega), if_neg (by omega)]
  have hloop := buildLoop_ok records (min chunk_size 60)
    (pyRangeAux records.length 0 records.length (min chunk_size 60).toNat) hr languages
  refine ⟨_, hloop, ?_⟩
  intro lang hmem
  rw [build_filter_lang records (min chunk_size 60).toNat
    (pyRangeAux records.length 0 records.length (min chunk_size 60).toNat) lang
    languages hnd hmem]
  refine ⟨?_, ?_, ?_⟩
  · rw [List.length_map]
    have := pyRangeAux_length (min chunk_size 60).toNat hb records.length 0
      records.length (by omega)
    simpa using this
  · rw [List.map_map]
    rw [show ((fun r : BatchRequest => r.start_index) ∘
      mkRequest records lang (min chunk_size 60).toNat) = id from rfl]
    rw [List.map_id]
    exact pyRangeAux_chain (min chunk_size 60).toNat hb records.length 0 records.length
  · rw [List.map_map]
    rw [show ((fun r : BatchRequest => r.payload.map Prod.fst) ∘
        mkRequest records lang (min chunk_size 60).toNat) =
      (fun i => List.range' i (min (min chunk_size 60).toNat (records.length - i))) from
      funext (fun i => mkRequest_payload_fst records lang (min chunk_size 60).toNat i)]
    rw [pyRangeAux_cover records.length (min chunk_size 60).toNat hb records.length 0
      (by omega)]
    rw [Nat.sub_zero, List.range_eq_range']

/-- Closed witness for the C3 theorem: three records, two languages and a
requested chunk size of 2 satisfy its hypotheses. -/
theorem builder_chunking_witness :
    ∃ reqs, build_requests ["a", "b", "c"] ["fr", "de"] 2 = .ok reqs ∧
      ∀ lang ∈ ["fr", "de"],
        ((reqs.filter (fun r => r.language = lang)).length =
          (["a", "b", "c"].length + (min (2 : Int) 60).toNat - 1) /
            (min (2 : Int) 60).toNat) ∧
        List.Chain' (· < ·)
          ((reqs.filter (fun r => r.language = lang)).map (fun r => r.start_index)) ∧
        (((reqs.filter (fun r => r.language = lang)).map
            (fun r => r.payload.map Prod.fst)).flatten =
          List.range ["a", "b", "c"].length) :=
  builder_chunking ["a", "b", "c"] ["fr", "de"] 2 (by norm_num) (by decide)

theorem modifyContent_length :
    ∀ (l : List Subtitle) (n : Nat) (c : String),
      (modifyContent l n c).length = l.length := by
  intro l
  induction l with
  | nil => intro n c; rfl
  | cons s rest ih =>
    intro n c
    cases n with
    | zero => rfl
    | succ m => simp [modifyContent, ih]

theorem modifyContent_getElem? :
    ∀ (l : List Subtitle) (n : Nat) (c : String) (i : Nat),
      (modifyContent l n c)[i]? =
        if i = n then (l[i]?).map (fun s => { s with content := c }) else l[i]? := by
  intro l
  induction l with
  | nil =>
    intro n c i
    simp [modifyContent]
  | cons s rest ih =>
    intro n c i
    cases n with
    | zero =>
      cases i with
      | zero => simp [modifyContent]
      | succ j => simp [modifyContent]
    | succ m =>
      cases i with
      | zero => simp [modifyContent]
      | succ j => simp [modifyContent, ih]

theorem apply_base_length :
    ∀ (items : List TransItem) (subs : List Subtitle),
      (apply_translations_base subs items).length = subs.length := by
  intro items
  induction items with
  | nil => intro subs; rfl
  | cons it rest ih =>
    intro subs
    show (apply_translations_base
      (if 0 ≤ it.index ∧ it.index < (subs.length : Int) then
        modifyContent subs it.index.toNat it.content
      else subs) rest).length = _
    rw [ih]
    split
    · exact modifyContent_length subs _ _
    · rfl

theorem lastWins_foldl (i : Int) :
    ∀ (l : List TransItem) (a : Option String),
      l.foldl (fun acc it => if it.index = i then some it.content else acc) a =
        match l.foldl (fun acc it => if it.index = i then some it.content else acc) none with
        | some c => some c
        | none => a := by
  intro l
  induction l with
  | nil => intro a; rfl
  | cons x rest ih =>
    intro a
    rw [List.foldl_cons, List.foldl_cons]
    by_cases h : x.index = i
    · rw [if_pos h, if_pos h]
      rw [ih (some x.content)]
      cases rest.foldl (fun acc it => if it.index = i then some it.content else acc) none <;>
        rfl
    · rw [if_neg h, if_neg h]
      exact ih a

theorem translationLookup_cons (it : TransItem) (rest : List TransItem) (i : Int) :
    translationLookup (it :: rest) i =
      match translationLookup rest i with
      | some c => some c
      | none => if it.index = i then some it.content else none := by
  unfold translationLookup
  rw [List.foldl_cons]
  exact lastWins_foldl i rest _

theorem apply_base_getElem? :
    ∀ (items : List TransItem) (subs : List Subtitle) (i : Nat),
      (apply_translations_base subs items)[i]? =
        (subs[i]?).map (fun s =>
          match translationLookup items (i : Int) with
          | some c => { s with content := c }
          | none => s) := by
  intro items
  induction items with
  | nil =>
    intro subs i
    show subs[i]? = _
    cases subs[i]? <;> rfl
  | cons it rest ih =>
    intro subs i
    show (apply_translations_base
      (if 0 ≤ it.index ∧ it.index < (subs.length : Int) then
        modifyContent subs it.index.toNat it.content
      else subs) rest)[i]? = _
    rw [ih, translationLookup_cons]
    cases hrest : translationLookup rest (i : Int) with
    | some c =>
      simp only []
      split
      · rw [modifyContent_getElem?]
        split
        · cases subs[i]? <;> rfl
        · rfl
      · rfl
    | none =>
      simp only []
      by_cases hidx : it.index = (i : Int)
      · rw [if_pos hidx]
        by_cases hlen : i < subs.length
        · rw [if_pos (by constructor <;> omega)]
          rw [modifyContent_getElem?, if_pos (by omega)]
          cases subs[i]? <;> rfl
        · rw [if_neg (by omega)]
          rw [List.getElem?_eq_none (by omega)]
          rfl
      · rw [if_neg hidx]
        split
        · rename_i hguard
          rw [modifyContent_getElem?, if_neg (by omega)]
        · rfl

theorem apply_gemini_spec (subs : List Subtitle) (items : List TransItem)
    (hne : items ≠ []) :
    ∃ out, apply_translations_gemini subs items = some out ∧
      out.length = subs.length ∧
      ∀ i : Nat, out[i]? = (subs[i]?).map (fun s =>
        match translationLookup items (i : Int) with
        | some c => { s with content := c }
        | none => s) := by
  unfold apply_translations_gemini
  rw [if_neg (by simpa using hne)]
  refine ⟨_, rfl, ?_, ?_⟩
  · rw [List.length_map, List.enum_length]
  · intro i
    rw [List.getElem?_map, List.getElem?_enum]
    cases subs[i]? <;> rfl

/-- C5 counterexample: the claim quantifies over every recovered
translation list, but the Gemini reassembler called with the empty list
returns early and produces no output at all, so its output record count
cannot equal the input record count there. -/
theorem gemini_apply_empty_count_cex :
    apply_translations_gemini
      [⟨1, "00:00:00,000", "00:00:01,000", "Bonjour"⟩] [] = none := rfl

/-- C5 amended: the base reassembler, for EVERY translation list, and the
Gemini reassembler, for every NON-EMPTY translation list, keep exactly
the input record count and act position-wise: a record whose position is
bound in the translation map (last binding wins) gets exactly that
content with its index and both timestamps unchanged, and any other
record is returned verbatim — substitutions only, never insertions or
deletions. -/
theorem apply_translations_substitution :
    (∀ (subs : List Subtitle) (items : List TransItem),
      (apply_translations_base subs items).length = subs.length ∧
      ∀ i : Nat, (apply_translations_base subs items)[i]? =
        (subs[i]?).map (fun s =>
          match translationLookup items (i : Int) with
          | some c => { s with content := c }
          | none => s)) ∧
    (∀ (subs : List Subtitle) (items : List TransItem), items ≠ [] →
      ∃ out, apply_translations_gemini subs items = some out ∧
        out.length = subs.length ∧
        ∀ i : Nat, out[i]? = (subs[i]?).map (fun s =>
          match translationLookup items (i : Int) with
          | some c => { s with content := c }
          | none => s)) :=
  ⟨fun subs items => ⟨apply_base_length items subs, apply_base_getElem? items subs⟩,
   fun subs items hne => apply_gemini_spec subs items hne⟩

/-- Closed witness for the C5 theorem at a one-record file and a
one-element translation list. -/
theorem apply_translations_substitution_witness :
    ((apply_translations_base [⟨1, "t0", "t1", "x"⟩] [⟨0, "y"⟩]).length =
      [(⟨1, "t0", "t1", "x"⟩ : Subtitle)].length) ∧
    ∃ out, apply_translations_gemini [⟨1, "t0", "t1", "x"⟩] [⟨0, "y"⟩] = some out ∧
      out.length = [(⟨1, "t0", "t1", "x"⟩ : Subtitle)].length ∧
      ∀ i : Nat, out[i]? = ([(⟨1, "t0", "t1", "x"⟩ : Subtitle)][i]?).map (fun s =>
        match translationLookup [⟨0, "y"⟩] (i : Int) with
        | some c => { s with content := c }
        | none => s) :=
  ⟨(apply_translations_substitution.1 [⟨1, "t0", "t1", "x"⟩] [⟨0, "y"⟩]).1,
   apply_translations_substitution.2 [⟨1, "t0", "t1", "x"⟩] [⟨0, "y"⟩] (by decide)⟩

theorem splitLineOpenAI_isOk (pp : String → Option (List Json)) :
    ∀ l : ResultLine, lineSafeOpenAI l = true → (splitLineOpenAI pp l).isOk = true := by
  intro l h
  cases l with
  | blank => rfl
  | invalid => rfl
  | record j =>
    cases j with
    | obj fields =>
      by_cases herr : ((lookupField fields "error").getD .null).truthy = true
      · simp only [splitLineOpenAI, if_pos herr]
        rfl
      · cases hc : lookupField fields "custom_id" with
        | none =>
          simp only [splitLineOpenAI, if_neg herr, hc]
          rfl
        | some v =>
          cases v with
          | str cid =>
            simp only [splitLineOpenAI, if_neg herr, hc]
            cases hsp : rsplitLast ':' cid.data with
            | none => rfl
            | some p =>
              obtain ⟨lc, rest2⟩ := p
              cases hex : extractOpenAIContent
                  ((lookupField fields "response").getD (.obj [])) with
              | error e => rfl
              | ok content => rfl
          | null =>
            exfalso
            simp only [lineSafeOpenAI, hc] at h
            rw [Bool.or_eq_true] at h
            rcases h with h1 | h1
            · exact herr h1
            · simp at h1
          | bool b =>
            exfalso
            simp only [lineSafeOpenAI, hc] at h
            rw [Bool.or_eq_true] at h
            rcases h with h1 | h1
            · exact herr h1
            · simp at h1
          | num n =>
            exfalso
            simp only [lineSafeOpenAI, hc] at h
            rw [Bool.or_eq_true] at h
            rcases h with h1 | h1
            · exact herr h1
            · simp at h1
          | arr es =>
            exfalso
            simp only [lineSafeOpenAI, hc] at h
            rw [Bool.or_eq_true] at h
            rcases h with h1 | h1
            · exact herr h1
            · simp at h1
          | obj fs =>
            exfalso
            simp only [lineSafeOpenAI, hc] at h
            rw [Bool.or_eq_true] at h
            rcases h with h1 | h1
            · exact herr h1
            · simp at h1
    | null => simp [lineSafeOpenAI] at h
    | bool b => simp [lineSafeOpenAI] at h
    | num n => simp [lineSafeOpenAI] at h
    | str s => simp [lineSafeOpenAI] at h
    | arr es => simp [lineSafeOpenAI] at h

theorem foldlM_splitStep_ok
    (line : ResultLine → Except String (Option (String × List Json))) :
    ∀ (doc : List ResultLine) (groups : List (String × List Json)),
      (∀ l ∈ doc, (line l).isOk = true) →
      ∃ g, doc.foldlM (splitStep line) groups = .ok g := by
  intro doc
  induction doc with
  | nil => intro groups _; exact ⟨groups, rfl⟩
  | cons l rest ih =>
    intro groups h
    have h1 := h l (List.mem_cons_self _ _)
    cases hs : line l with
    | error e =>
      rw [hs] at h1
      exact absurd h1 (Bool.noConfusion)
    | ok c =>
      cases c with
      | none =>
        have hstep : splitStep line groups l = .ok groups := by
          unfold splitStep
          rw [hs]
          rfl
        obtain ⟨g, hg⟩ := ih groups (fun x hx => h x (List.mem_cons_of_mem _ hx))
        refine ⟨g, ?_⟩
        rw [List.foldlM_cons, hstep]
        exact hg
      | some q =>
        obtain ⟨ql, qi⟩ := q
        have hstep : splitStep line groups l = .ok (extendGroup groups ql qi) := by
          unfold splitStep
          rw [hs]
          rfl
        obtain ⟨g, hg⟩ := ih (extendGroup groups ql qi)
          (fun x hx => h x (List.mem_cons_of_mem _ hx))
        refine ⟨g, ?_⟩
        rw [List.foldlM_cons, hstep]
        exact hg

/-- C1 counterexample: on a document whose first line is not valid JSON,
the base `split_by_language` raises (`json.loads` is not guarded by any
try/except there), instead of skipping the malformed record as the claim
states. -/
theorem split_base_raises_cex :
    split_by_language_base examplePayloadFn exampleResultDoc =
      .error "json.loads: JSONDecodeError" := rfl

/-- C1 amended: the `openai/` variant of `split_by_language` never raises
on the malformed shapes the claim lists — undecodable lines, error-marked
records, keys missing or lacking the delimiter, broken response nestings,
failed payload extractions (the only remaining uncaught shapes are a
decoded line that is not a JSON object and a non-string key, which the
hypothesis excludes) — and on a concrete document with one well-formed
record and nine malformed ones it returns exactly one language group
holding the translations of that record.  The base variant instead raises on
such documents (see the counterexample). -/
theorem split_openai_lenient (pp : String → Option (List Json))
    (doc : List ResultLine) (h : ∀ l ∈ doc, lineSafeOpenAI l = true) :
    (split_by_language_openai pp doc).isOk = true ∧
    split_by_language_openai examplePayloadFn exampleResultDoc =
      .ok [("fr", [exampleItemA, exampleItemB])] := by
  constructor
  · obtain ⟨g, hg⟩ := foldlM_splitStep_ok (splitLineOpenAI pp) doc []
      (fun l hl => splitLineOpenAI_isOk pp l (h l hl))
    unfold split_by_language_openai
    rw [hg]
    rfl
  · rfl

/-- Closed witness for the C1 theorem at the ten-line example document. -/
theorem split_openai_lenient_witness :
    (split_by_language_openai examplePayloadFn exampleResultDoc).isOk = true ∧
    split_by_language_openai examplePayloadFn exampleResultDoc =
      .ok [("fr", [exampleItemA, exampleItemB])] :=
  split_openai_lenient examplePayloadFn exampleResultDoc (by decide)

theorem lookupGroup_extend_self :
    ∀ (g : List (String × List Json)) (lg : String) (items : List Json),
      lookupGroup (extendGroup g lg items) lg =
        some ((lookupGroup g lg).getD [] ++ items) := by
  intro g lg items
  induction g with
  | nil => simp [extendGroup, lookupGroup]
  | cons p rest ih =>
    obtain ⟨l, its⟩ := p
    unfold extendGroup
    by_cases h : l = lg
    · rw [if_pos h]
      unfold lookupGroup
      rw [if_pos h, if_pos h]
      rfl
    · rw [if_neg h]
      unfold lookupGroup
      rw [if_neg h, if_neg h]
      exact ih

theorem lookupGroup_extend_other :
    ∀ (g : List (String × List Json)) (lg lang : String) (items : List Json),
      lang ≠ lg →
      lookupGroup (extendGroup g lg items) lang = lookupGroup g lang := by
  intro g lg lang items hne
  induction g with
  | nil =>
    show lookupGroup [(lg, items)] lang = none
    unfold lookupGroup
    rw [if_neg (fun he => hne he.symm)]
    rfl
  | cons p rest ih =>
    obtain ⟨l, its⟩ := p
    unfold extendGroup
    by_cases h : l = lg
    · rw [if_pos h]
      show lookupGroup ((l, its ++ items) :: rest) lang = lookupGroup ((l, its) :: rest) lang
      unfold lookupGroup
      by_cases h2 : l = lang
      · exact absurd (h2.symm.trans h) hne
      · rw [if_neg h2, if_neg h2]
    · rw [if_neg h]
      show lookupGroup ((l, its) :: extendGroup rest lg items) lang =
        lookupGroup ((l, its) :: rest) lang
      unfold lookupGroup
      by_cases h2 : l = lang
      · rw [if_pos h2, if_pos h2]
      · rw [if_neg h2, if_neg h2]
        exact ih

theorem split_mem_aux
    (line : ResultLine → Except String (Option (String × List Json))) :
    ∀ (doc : List ResultLine) (g0 g : List (String × List Json)),
      doc.foldlM (splitStep line) g0 = .ok g →
      ∀ (lang : String) (its : List Json) (item : Json),
        lookupGroup g lang = some its → item ∈ its →
        (∃ its0, lookupGroup g0 lang = some its0 ∧ item ∈ its0) ∨
        (∃ l ∈ doc, ∃ parsed, line l = .ok (some (lang, parsed)) ∧ item ∈ parsed) := by
  intro doc
  induction doc with
  | nil =>
    intro g0 g h lang its item hl hm
    left
    have he : g0 = g := by
      rw [List.foldlM_nil] at h
      exact Except.ok.inj h
    exact ⟨its, by rw [he]; exact hl, hm⟩
  | cons l rest ih =>
    intro g0 g h lang its item hl hm
    rw [List.foldlM_cons] at h
    cases hs : line l with
    | error e =>
      rw [show splitStep line g0 l = .error e from by unfold splitStep; rw [hs]; rfl] at h
      cases h
    | ok c =>
      cases c with
      | none =>
        have hstep : splitStep line g0 l = .ok g0 := by
          unfold splitStep
          rw [hs]
          rfl
        rw [hstep] at h
        have h2 : rest.foldlM (splitStep line) g0 = .ok g := h
        rcases ih _ g h2 lang its item hl hm with ⟨its0, hl0, hm0⟩ |
          ⟨l2, hl2, parsed, hp, hmp⟩
        · exact .inl ⟨its0, hl0, hm0⟩
        · exact .inr ⟨l2, List.mem_cons_of_mem _ hl2, parsed, hp, hmp⟩
      | some q =>
        obtain ⟨ql, qitems⟩ := q
        have hstep : splitStep line g0 l = .ok (extendGroup g0 ql qitems) := by
          unfold splitStep
          rw [hs]
          rfl
        rw [hstep] at h
        have h2 : rest.foldlM (splitStep line) (extendGroup g0 ql qitems) = .ok g := h
        rcases ih _ g h2 lang its item hl hm with ⟨its0, hl0, hm0⟩ |
          ⟨l2, hl2, parsed, hp, hmp⟩
        · by_cases hlg : lang = ql
          · subst hlg
            rw [lookupGroup_extend_self] at hl0
            injection hl0 with hl0
            rw [← hl0] at hm0
            rcases List.mem_append.mp hm0 with hin | hin
            · left
              cases hg0 : lookupGroup g0 lang with
              | none => rw [hg0] at hin; simp at hin
              | some old => rw [hg0] at hin; exact ⟨old, rfl, hin⟩
            · exact .inr ⟨l, List.mem_cons_self _ _, qitems, hs, hin⟩
          · rw [lookupGroup_extend_other g0 ql lang qitems hlg] at hl0
            exact .inl ⟨its0, hl0, hm0⟩
        · exact .inr ⟨l2, List.mem_cons_of_mem _ hl2, parsed, hp, hmp⟩

theorem buildLoop_cons (records : List String) (bs : Int) (l : String)
    (rest : List String) :
    buildLoop records bs (l :: rest) =
      (pyRangeZero records.length bs).bind (fun starts =>
        (buildLoop records bs rest).map (fun more =>
          starts.map (mkRequest records l bs.toNat) ++ more)) := by
  conv_lhs => rw [buildLoop]
  cases pyRangeZero records.length bs with
  | error e => rfl
  | ok starts =>
    cases buildLoop records bs rest with
    | error e => rfl
    | ok more => rfl

theorem buildLoop_mem (records : List String) (bs : Int) :
    ∀ (langs : List String) (reqs : List BatchRequest) (r : BatchRequest),
      buildLoop records bs langs = .ok reqs → r ∈ reqs →
      ∃ lang i, r = mkRequest records lang bs.toNat i := by
  intro langs
  induction langs with
  | nil =>
    intro reqs r h hr
    have he : ([] : List BatchRequest) = reqs := Except.ok.inj h
    rw [← he] at hr
    simp at hr
  | cons l rest ih =>
    intro reqs r h hr
    rw [buildLoop_cons] at h
    cases hpz : pyRangeZero records.length bs with
    | error e => rw [hpz] at h; cases h
    | ok starts =>
      rw [hpz] at h
      cases hbl : buildLoop records bs rest with
      | error e => rw [hbl] at h; cases h
      | ok more =>
        rw [hbl] at h
        have he : starts.map (mkRequest records l bs.toNat) ++ more = reqs :=
          Except.ok.inj h
        rw [← he] at hr
        rcases List.mem_append.mp hr with hin | hin
        · obtain ⟨i, hi, hri⟩ := List.mem_map.mp hin
          exact ⟨l, i, hri.symm⟩
        · exact ih more r hbl hin

theorem mkRequest_payload_length (records : List String) (lang : String) (bs i : Nat) :
    (mkRequest records lang bs i).payload.length = min bs (records.length - i) := by
  show (((records.drop i).take bs).enum.map _).length = _
  rw [List.length_map, List.enum_length, List.length_take, List.length_drop]

theorem mkRequest_payload_content (records : List String) (lang : String) (bs i : Nat) :
    ∀ p ∈ (mkRequest records lang bs i).payload, records[p.1]? = some p.2 := by
  intro p hp
  have hp2 : p ∈ ((records.drop i).take bs).enum.map (fun q => (i + q.1, q.2)) := hp
  rw [List.mem_map] at hp2
  obtain ⟨q, hq, hpe⟩ := hp2
  obtain ⟨a, b⟩ := q
  rw [List.enum_eq_enumFrom] at hq
  obtain ⟨-, ha, hb⟩ := List.mem_enumFrom hq
  rw [← hpe]
  show records[i + a]? = some b
  have hlen : ((records.drop i).take bs).length = min bs (records.length - i) := by
    rw [List.length_take, List.length_drop]
  have ha2 : a < ((records.drop i).take bs).length := by omega
  have hchunk : ((records.drop i).take bs)[a]? = some b := by
    rw [List.getElem?_eq_getElem ha2]
    exact congrArg some (by simpa using hb.symm)
  have habs : a < bs := by omega
  rw [← List.getElem?_drop, ← List.getElem?_take_of_lt habs]
  exact hchunk

/-- C9: the absolute-index contract.  Every request the builder emits
carries payload indices that are exactly the absolute record indices
`start_index, start_index + 1, ...` (never chunk-local `0, 1, ...`) with
the original record at each absolute index as content; and every item the
result correlator recovers into a language bucket is an element of some
extracted payload of some record, taken verbatim — the correlator never adds the
start index of the key back into element indices. -/
theorem absolute_index_contract :
    (∀ (records langs : List String) (cs : Int) (reqs : List BatchRequest),
      build_requests records langs cs = .ok reqs →
      ∀ r ∈ reqs,
        r.payload.map Prod.fst = List.range' r.start_index r.payload.length ∧
        ∀ p ∈ r.payload, records[p.1]? = some p.2) ∧
    (∀ (pp : String → Option (List Json)) (doc : List ResultLine)
        (groups : List (String × List Json)) (lang : String)
        (its : List Json) (item : Json),
      split_by_language_openai pp doc = .ok groups →
      lookupGroup groups lang = some its → item ∈ its →
      ∃ l ∈ doc, ∃ parsed, splitLineOpenAI pp l = .ok (some (lang, parsed)) ∧
        item ∈ parsed) := by
  constructor
  · intro records langs cs reqs h r hr
    obtain ⟨lang, i, hre⟩ := buildLoop_mem records (min cs 60) langs reqs r h hr
    subst hre
    constructor
    · rw [mkRequest_payload_length, mkRequest_payload_fst]
      rfl
    · exact mkRequest_payload_content records lang _ i
  · intro pp doc groups lang its item h hl hm
    rcases split_mem_aux (splitLineOpenAI pp) doc [] groups h lang its item hl hm with
      ⟨its0, hl0, -⟩ | hgood
    · cases hl0
    · exact hgood

/-- Closed witness for the C9 theorem: the second chunk of a three-record
build carries absolute indices, and the single recovered item of a
one-record result document is an element of the payload of that record. -/
theorem absolute_index_contract_witness :
    ((mkRequest ["a", "b", "c"] "fr" 2 2).payload.map Prod.fst =
      List.range' 2 (mkRequest ["a", "b", "c"] "fr" 2 2).payload.length ∧
      ∀ p ∈ (mkRequest ["a", "b", "c"] "fr" 2 2).payload,
        ["a", "b", "c"][p.1]? = some p.2) ∧
    (∃ l ∈ exampleDocDe, ∃ parsed,
      splitLineOpenAI examplePayloadFn l = .ok (some ("de", parsed)) ∧
      exampleItemA ∈ parsed) := by
  constructor
  · have hb : build_requests ["a", "b", "c"] ["fr"] 2 =
        .ok [mkRequest ["a", "b", "c"] "fr" 2 0, mkRequest ["a", "b", "c"] "fr" 2 2] := rfl
    exact absolute_index_contract.1 ["a", "b", "c"] ["fr"] 2 _ hb
      (mkRequest ["a", "b", "c"] "fr" 2 2) (by decide)
  · exact absolute_index_contract.2 examplePayloadFn exampleDocDe
      [("de", [exampleItemA, exampleItemB])] "de" [exampleItemA, exampleItemB]
      exampleItemA rfl rfl (List.mem_cons_self _ _)

end Srt
